import Mathlib

/-!
Verification of the waterwheel scheduling core.

This file gives a shallow embedding, in Lean, of the server-side scheduling
engine of the waterwheel workflow scheduler:

* the progress ingester (`src/server/progress.rs`, `process_progress`),
* the trigger scheduler (`src/server/triggers.rs`: `catchup_trigger`,
  `do_activate_trigger`, `activate_trigger`, `update_trigger`),
* the message types (`src/messages.rs`) and the worker heartbeat
  (`src/worker/heartbeat.rs`).

Datetimes are modelled as `Int` (seconds since the epoch, UTC), durations as
`Int` seconds, UUIDs as `Nat`.  Database tables are modelled as Lean lists of
row structures; a SQL `UPDATE ... WHERE` is a `List.map` touching the matching
rows and a `SELECT ... WHERE` is a `List.filter` / `List.find?`.  The bus and
the in-process channels are modelled by explicit event traces: each modelled
operation returns, besides the new database state, the ordered list of
externally visible events it performs (transaction commit, bus ack, message
publish).  Fallible operations return `Except String`.

The function `increment_token` lives in `src/server/tokens.rs`, which is not
part of the provided sources; it is modelled from the specification (§4.2) and
is marked as such below.  The `cron` crate is external; cron schedules are
modelled as an abstract successor function and cron parsing is passed in as an
explicit function argument, mirroring the call to `Schedule::from_str`.
-/

namespace Waterwheel

/-! ### Basic data model -/

/-- UUIDs (128-bit in the source) are modelled as natural numbers. -/
abbrev Uuid := Nat

/-- UTC datetimes are modelled as integer seconds since the epoch. -/
abbrev DateTime := Int

/-- Token identity, from `src/messages.rs` (`struct Token`): the pair of a
task id and the logical trigger datetime. -/
structure Token where
  task_id : Uuid
  trigger_datetime : DateTime
deriving DecidableEq

/-- Row of the `task_edge` table (spec §3): `kind` is the string
`"success"` or `"failure"` selecting which results propagate. -/
structure TaskEdge where
  parent_task_id : Uuid
  child_task_id : Uuid
  kind : String
deriving DecidableEq

/-- Row of the `token` table (spec §3): per (task, trigger_datetime) count of
received prerequisite completions.  `state` is one of `"waiting"`,
`"active"`, `"running"`, `"success"`, `"failure"`. -/
structure TokenRow where
  task_id : Uuid
  trigger_datetime : DateTime
  count : Nat
  threshold : Nat
  state : String
deriving DecidableEq

/-- Match of a token-table row against a token key, as in the SQL
`WHERE task_id = $1 AND trigger_datetime = $2` clauses. -/
def tokenMatches (tok : Token) (r : TokenRow) : Bool :=
  r.task_id == tok.task_id && r.trigger_datetime == tok.trigger_datetime

/-- Modelled from the spec: `increment_token` is defined in
`src/server/tokens.rs`, which is missing from the provided sources; §4.2 of
the spec gives its semantics.  If the row for the token's key exists its
`count` is incremented, otherwise the row is created lazily with `count = 1`,
`state = "waiting"` and `threshold` equal to the task's in-degree, i.e. the
number of `task_edge` rows whose `child_task_id` is the token's task. -/
def increment_token (task_edges : List TaskEdge) (tokens : List TokenRow)
    (tok : Token) : List TokenRow :=
  if tokens.any (tokenMatches tok) then
    tokens.map (fun r =>
      if tokenMatches tok r then { r with count := r.count + 1 } else r)
  else
    { task_id := tok.task_id
      trigger_datetime := tok.trigger_datetime
      count := 1
      threshold := (task_edges.filter
        (fun e => e.child_task_id == tok.task_id)).length
      state := "waiting" } :: tokens

/-- Lookup of a token row by its primary key `(task_id, trigger_datetime)`. -/
def findToken (tokens : List TokenRow) (tid : Uuid) (dt : DateTime) :
    Option TokenRow :=
  tokens.find? (fun r => r.task_id == tid && r.trigger_datetime == dt)

/-- The `count` column of a token row, `0` if the row does not exist. -/
def lookupCount (tokens : List TokenRow) (tid : Uuid) (dt : DateTime) : Nat :=
  ((findToken tokens tid dt).map TokenRow.count).getD 0

/-- The `state` column of a token row, if the row exists. -/
def lookupState (tokens : List TokenRow) (tid : Uuid) (dt : DateTime) :
    Option String :=
  (findToken tokens tid dt).map TokenRow.state

/-- The parent-state write of the progress ingester
(`src/server/progress.rs` lines 73-83): `UPDATE token SET state = $1 WHERE
task_id = $2 AND trigger_datetime = $3`. -/
def setTokenState (tokens : List TokenRow) (tid : Uuid) (dt : DateTime)
    (s : String) : List TokenRow :=
  tokens.map (fun r =>
    if r.task_id == tid && r.trigger_datetime == dt then
      { r with state := s }
    else r)

/-! ### Bookkeeping lemmas about `increment_token` -/

theorem tokenMatches_eq_key (tok : Token) (r : TokenRow) :
    tokenMatches tok r = true ↔
      r.task_id = tok.task_id ∧ r.trigger_datetime = tok.trigger_datetime := by
  simp [tokenMatches]

theorem lookupCount_map_bump_ne (tok : Token) (tokens : List TokenRow)
    (tid : Uuid) (dt : DateTime)
    (h : ¬ (tok.task_id = tid ∧ tok.trigger_datetime = dt)) :
    lookupCount (tokens.map (fun r =>
      if tokenMatches tok r then { r with count := r.count + 1 } else r))
      tid dt = lookupCount tokens tid dt := by
  induction tokens with
  | nil => rfl
  | cons r rest ih =>
    by_cases hm : tokenMatches tok r = true
    · have hk := (tokenMatches_eq_key tok r).mp hm
      have hr : ¬ (r.task_id = tid ∧ r.trigger_datetime = dt) := by
        rintro ⟨h1, h2⟩
        exact h ⟨by rw [← hk.1, h1], by rw [← hk.2, h2]⟩
      simp only [List.map_cons, lookupCount, findToken, List.find?]
      rw [if_pos hm]
      have : ({ r with count := r.count + 1 } : TokenRow).task_id = r.task_id ∧
          ({ r with count := r.count + 1 } : TokenRow).trigger_datetime
            = r.trigger_datetime := ⟨rfl, rfl⟩
      by_cases hq : (r.task_id == tid && r.trigger_datetime == dt) = true
      · exact absurd (by simpa using hq) hr
      · simp only [this.1, this.2] at *
        rw [Bool.not_eq_true] at hq
        simp only [hq]
        exact ih
    · simp only [List.map_cons, lookupCount, findToken, List.find?]
      rw [if_neg hm]
      by_cases hq : (r.task_id == tid && r.trigger_datetime == dt) = true
      · simp [hq]
      · rw [Bool.not_eq_true] at hq
        simp only [hq]
        exact ih

theorem lookupCount_map_bump_eq (tok : Token) (tokens : List TokenRow)
    (h : tokens.any (tokenMatches tok) = true) :
    lookupCount (tokens.map (fun r =>
      if tokenMatches tok r then { r with count := r.count + 1 } else r))
      tok.task_id tok.trigger_datetime
      = lookupCount tokens tok.task_id tok.trigger_datetime + 1 := by
  induction tokens with
  | nil => simp at h
  | cons r rest ih =>
    by_cases hm : tokenMatches tok r = true
    · have hk := (tokenMatches_eq_key tok r).mp hm
      simp only [List.map_cons, lookupCount, findToken, List.find?]
      rw [if_pos hm]
      have hq : (r.task_id == tok.task_id &&
          r.trigger_datetime == tok.trigger_datetime) = true := by
        simp [hk.1, hk.2]
      simp only [TokenRow.mk.injEq] at *
      simp [hq, hk.1, hk.2]
    · have h' : rest.any (tokenMatches tok) = true := by
        simp only [List.any_cons, hm, Bool.false_or] at h
        exact h
      have hq : ¬ (r.task_id == tok.task_id &&
          r.trigger_datetime == tok.trigger_datetime) = true := by
        intro hc
        exact hm ((tokenMatches_eq_key tok r).mpr (by simpa using hc))
      simp only [List.map_cons, lookupCount, findToken, List.find?]
      rw [if_neg hm]
      rw [Bool.not_eq_true] at hq
      simp only [hq]
      exact ih h'

/-- Effect of one `increment_token` call on any token count: the count at the
incremented key goes up by one (creating the row if needed), every other
count is unchanged. -/
theorem lookupCount_increment_token (task_edges : List TaskEdge)
    (tokens : List TokenRow) (tok : Token) (tid : Uuid) (dt : DateTime) :
    lookupCount (increment_token task_edges tokens tok) tid dt
      = lookupCount tokens tid dt +
        (if tok.task_id = tid ∧ tok.trigger_datetime = dt then 1 else 0) := by
  by_cases hkey : tok.task_id = tid ∧ tok.trigger_datetime = dt
  · rw [if_pos hkey]
    unfold increment_token
    by_cases hany : tokens.any (tokenMatches tok) = true
    · rw [if_pos hany]
      rw [← hkey.1, ← hkey.2]
      exact lookupCount_map_bump_eq tok tokens hany
    · rw [if_neg hany]
      have hnone : findToken tokens tid dt = none := by
        unfold findToken
        rw [List.find?_eq_none]
        intro r hr hc
        apply hany
        rw [List.any_eq_true]
        have hc' : r.task_id = tid ∧ r.trigger_datetime = dt := by
          simpa using hc
        refine ⟨r, hr, (tokenMatches_eq_key tok r).mpr ?_⟩
        rw [hkey.1, hkey.2]
        exact hc'
      have hq : (tok.task_id == tid && tok.trigger_datetime == dt) = true := by
        simp [hkey.1, hkey.2]
      have hR : lookupCount tokens tid dt = 0 := by
        simp [lookupCount, hnone]
      rw [hR]
      simp [lookupCount, findToken, List.find?, hq]
  · rw [if_neg hkey]
    unfold increment_token
    by_cases hany : tokens.any (tokenMatches tok) = true
    · rw [if_pos hany]
      exact lookupCount_map_bump_ne tok tokens tid dt hkey
    · rw [if_neg hany]
      have hq : ¬ (tok.task_id == tid && tok.trigger_datetime == dt) = true := by
        intro hc
        exact hkey (by simpa using hc)
      simp only [lookupCount, findToken, List.find?]
      rw [Bool.not_eq_true] at hq
      simp only [hq]
      simp

/-- Folding `increment_token` over a list of tokens adds, at every key, the
number of occurrences of that key in the list. -/
theorem lookupCount_foldl_increment (task_edges : List TaskEdge)
    (toks : List Token) (tokens : List TokenRow) (tid : Uuid) (dt : DateTime) :
    lookupCount (toks.foldl (increment_token task_edges) tokens) tid dt
      = lookupCount tokens tid dt +
        (toks.filter (fun t =>
          t.task_id == tid && t.trigger_datetime == dt)).length := by
  induction toks generalizing tokens with
  | nil => simp
  | cons t rest ih =>
    simp only [List.foldl_cons]
    rw [ih]
    rw [lookupCount_increment_token]
    by_cases hkey : t.task_id = tid ∧ t.trigger_datetime = dt
    · have hq : (t.task_id == tid && t.trigger_datetime == dt) = true := by
        simp [hkey.1, hkey.2]
      rw [if_pos hkey]
      simp only [List.filter_cons, hq]
      simp [Nat.add_comm, Nat.add_assoc, Nat.add_left_comm]
    · have hq : ¬ (t.task_id == tid && t.trigger_datetime == dt) = true := by
        intro hc; exact hkey (by simpa using hc)
      rw [if_neg hkey]
      rw [Bool.not_eq_true] at hq
      simp only [List.filter_cons, hq]
      simp

/-- Counts are untouched by the parent-state write. -/
theorem lookupCount_setTokenState (tokens : List TokenRow) (tid : Uuid)
    (dt : DateTime) (s : String) (tid' : Uuid) (dt' : DateTime) :
    lookupCount (setTokenState tokens tid dt s) tid' dt'
      = lookupCount tokens tid' dt' := by
  induction tokens with
  | nil => rfl
  | cons r rest ih =>
    simp only [setTokenState, List.map_cons, lookupCount, findToken,
      List.find?]
    by_cases hm : (r.task_id == tid && r.trigger_datetime == dt) = true
    · rw [if_pos hm]
      by_cases hq : (r.task_id == tid' && r.trigger_datetime == dt') = true
      · simp [hq]
      · rw [Bool.not_eq_true] at hq
        simp only [hq]
        exact ih
    · rw [if_neg hm]
      by_cases hq : (r.task_id == tid' && r.trigger_datetime == dt') = true
      · simp [hq]
      · rw [Bool.not_eq_true] at hq
        simp only [hq]
        exact ih

/-- An existing token row still exists after an increment. -/
theorem findToken_isSome_increment (task_edges : List TaskEdge)
    (tokens : List TokenRow) (tok : Token) (tid : Uuid) (dt : DateTime)
    (h : (findToken tokens tid dt).isSome = true) :
    (findToken (increment_token task_edges tokens tok) tid dt).isSome
      = true := by
  unfold findToken at h ⊢
  rw [List.find?_isSome] at h ⊢
  obtain ⟨x, hx, hpx⟩ := h
  unfold increment_token
  by_cases hany : tokens.any (tokenMatches tok) = true
  · rw [if_pos hany]
    refine ⟨_, List.mem_map_of_mem _ hx, ?_⟩
    by_cases hm : tokenMatches tok x = true
    · simp only [hm, if_pos]
      simpa using hpx
    · rw [Bool.not_eq_true] at hm
      simp only [hm]
      simpa using hpx
  · rw [if_neg hany]
    exact ⟨x, List.mem_cons_of_mem _ hx, hpx⟩

/-- An existing token row still exists after any sequence of increments. -/
theorem findToken_isSome_foldl_increment (task_edges : List TaskEdge)
    (toks : List Token) (tokens : List TokenRow) (tid : Uuid) (dt : DateTime)
    (h : (findToken tokens tid dt).isSome = true) :
    (findToken (toks.foldl (increment_token task_edges) tokens) tid dt).isSome
      = true := by
  induction toks generalizing tokens with
  | nil => exact h
  | cons t rest ih =>
    exact ih _ (findToken_isSome_increment task_edges tokens t tid dt h)

/-- Writing the state of an existing row is visible in the lookup. -/
theorem lookupState_setTokenState_self (tokens : List TokenRow) (tid : Uuid)
    (dt : DateTime) (s : String)
    (h : (findToken tokens tid dt).isSome = true) :
    lookupState (setTokenState tokens tid dt s) tid dt = some s := by
  induction tokens with
  | nil => simp [findToken] at h
  | cons r rest ih =>
    by_cases hm : (r.task_id == tid && r.trigger_datetime == dt) = true
    · simp only [lookupState, setTokenState, List.map_cons, findToken,
        List.find?]
      rw [if_pos hm]
      simp only [hm]
      simp [hm]
    · have h' : (findToken rest tid dt).isSome = true := by
        simp only [findToken, List.find?] at h
        rw [Bool.not_eq_true] at hm
        simp only [hm] at h
        exact h
      simp only [lookupState, setTokenState, List.map_cons, findToken,
        List.find?]
      rw [if_neg hm]
      rw [Bool.not_eq_true] at hm
      simp only [hm]
      exact ih h'

/-! ### The progress ingester (`src/server/progress.rs`) -/

/-- Externally visible events of one iteration of the progress-ingester
consumer loop: committing the DB transaction, acking the bus delivery, and
publishing a `ProcessToken` to the token processor's channel. -/
inductive PEvent where
  | commit : PEvent
  | ack : PEvent
  | publish : Token → PEvent
deriving DecidableEq

/-- Decoded form of a `TaskResult` bus message (`src/messages.rs`): the
string fields `task_id`/`trigger_datetime` are modelled post-parse. -/
structure TaskResult where
  task_id : Uuid
  trigger_datetime : DateTime
  result : String
  worker_id : Uuid
deriving DecidableEq

/-- The slice of the database the progress ingester reads and writes. -/
structure ProgressDB where
  task_edges : List TaskEdge
  tokens : List TokenRow
deriving DecidableEq

/-- Children of a task result: the `SELECT child_task_id FROM task_edge WHERE
parent_task_id = $1 AND kind = $2` query of `process_progress`. -/
def childIds (db : ProgressDB) (tr : TaskResult) : List Uuid :=
  (db.task_edges.filter (fun e =>
    e.parent_task_id == tr.task_id && e.kind == tr.result)).map
    TaskEdge.child_task_id

/-- The child tokens constructed in the `process_progress` loop: one per
matching `task_edge` row, sharing the parent's `trigger_datetime`. -/
def childTokens (db : ProgressDB) (tr : TaskResult) : List Token :=
  (childIds db tr).map (fun c =>
    { task_id := c, trigger_datetime := tr.trigger_datetime })

/-- One iteration of the consumer loop of `process_progress`
(`src/server/progress.rs` lines 39-94).  `decoded` is the outcome of
`serde_json::from_slice` plus `TaskResult::get_token`; the `?` on a decode
failure propagates the error out of the loop (terminating the ingester), so
the error case performs no event at all.  On success: each child token is
incremented inside the transaction, the parent row's `state` is set to the
result, the transaction commits, the delivery is acked, and only then is one
`ProcessToken` per child sent to the token processor. -/
def process_progress (db : ProgressDB) (decoded : Except String TaskResult) :
    Except String (ProgressDB × List PEvent) :=
  match decoded with
  | .error e => .error e
  | .ok tr =>
    let toks := childTokens db tr
    let tokens1 := toks.foldl (increment_token db.task_edges) db.tokens
    let tokens2 := setTokenState tokens1 tr.task_id tr.trigger_datetime
      tr.result
    .ok ({ db with tokens := tokens2 },
      PEvent.commit :: PEvent.ack :: toks.map PEvent.publish)

/-- Whether one consumer-loop iteration acked the bus delivery. -/
def acksMessage (r : Except String (ProgressDB × List PEvent)) : Bool :=
  match r with
  | .ok (_, evs) => evs.contains PEvent.ack
  | .error _ => false

/-! ### Concrete inputs for the progress-ingester claims -/

/-- A one-edge graph (task 1 → task 2 on success) whose parent token row
(task 1, count 1/1, state success) is already terminal and whose child token
row (task 2) has count 0. -/
def progressDbC1 : ProgressDB where
  task_edges := [⟨1, 2, "success"⟩]
  tokens := [⟨1, 0, 1, 1, "success"⟩, ⟨2, 0, 0, 1, "waiting"⟩]

/-- A redelivered result (task 1, datetime 0, success) for the terminal
parent of `progressDbC1`. -/
def taskResultC1 : TaskResult := ⟨1, 0, "success", 9⟩

/-- A one-edge graph (task 1 → task 2 on success) with a running parent
token row (task 1, count 1/1), for the nominal-path claim. -/
def progressDbC2 : ProgressDB where
  task_edges := [⟨1, 2, "success"⟩]
  tokens := [⟨1, 0, 1, 1, "running"⟩]

/-- A first delivery of the result (task 1, datetime 0, success). -/
def taskResultC2 : TaskResult := ⟨1, 0, "success", 7⟩

/-- C1: the claim says a `TaskResult` delivery whose parent token is already
terminal leaves all token rows unchanged.  The code does not check the
parent's state: evaluating `process_progress` on `progressDbC1`, whose parent
token (task 1, datetime 0) is already `"success"`, still increments the child
token's count from 0 to 1, so the rows change and redelivery over-counts.
This is the divergence the spec itself flags in §9 (the source applies child
increments unconditionally, where the spec prescribes a CAS on the parent
state). -/
theorem terminal_parent_redelivery_increments_child :
    lookupState progressDbC1.tokens 1 0 = some "success" ∧
    ∃ db1 evs,
      process_progress progressDbC1 (Except.ok taskResultC1)
        = Except.ok (db1, evs) ∧
      lookupCount progressDbC1.tokens 2 0 = 0 ∧
      lookupCount db1.tokens 2 0 = 1 := by
  refine ⟨by decide, _, _, rfl, by decide, ?_⟩
  decide

/-- C2: on a decoded `TaskResult`, `process_progress` increments, inside the
transaction, exactly one token per matching `task_edge` row (each child token
carrying the child's task id and the parent's `trigger_datetime`), sets the
parent token row's state to the result, and the event trace is: commit, then
ack, then one `ProcessToken` publish per child — so the ack and the publishes
happen only after the commit. -/
theorem process_progress_ok_spec (db : ProgressDB) (tr : TaskResult)
    (hp : (findToken db.tokens tr.task_id tr.trigger_datetime).isSome
      = true) :
    ∃ tokens2,
      process_progress db (Except.ok tr)
        = Except.ok ({ db with tokens := tokens2 },
            PEvent.commit :: PEvent.ack ::
              (childTokens db tr).map PEvent.publish) ∧
      (∀ t ∈ childTokens db tr, t.trigger_datetime = tr.trigger_datetime) ∧
      (∀ tid dt, lookupCount tokens2 tid dt
        = lookupCount db.tokens tid dt +
          ((childTokens db tr).filter (fun t =>
            t.task_id == tid && t.trigger_datetime == dt)).length) ∧
      lookupState tokens2 tr.task_id tr.trigger_datetime = some tr.result := by
  refine ⟨_, rfl, ?_, ?_, ?_⟩
  · intro t ht
    unfold childTokens at ht
    rw [List.mem_map] at ht
    obtain ⟨c, _, rfl⟩ := ht
    rfl
  · intro tid dt
    rw [lookupCount_setTokenState]
    exact lookupCount_foldl_increment _ _ _ _ _
  · exact lookupState_setTokenState_self _ _ _ _
      (findToken_isSome_foldl_increment _ _ _ _ _ hp)

/-- Witness for C2 at the concrete input `progressDbC2` / `taskResultC2`. -/
theorem process_progress_ok_spec_witness :
    (findToken progressDbC2.tokens taskResultC2.task_id
      taskResultC2.trigger_datetime).isSome = true ∧
    ∃ tokens2,
      process_progress progressDbC2 (Except.ok taskResultC2)
        = Except.ok ({ progressDbC2 with tokens := tokens2 },
            PEvent.commit :: PEvent.ack ::
              (childTokens progressDbC2 taskResultC2).map PEvent.publish) ∧
      (∀ t ∈ childTokens progressDbC2 taskResultC2,
        t.trigger_datetime = taskResultC2.trigger_datetime) ∧
      (∀ tid dt, lookupCount tokens2 tid dt
        = lookupCount progressDbC2.tokens tid dt +
          ((childTokens progressDbC2 taskResultC2).filter (fun t =>
            t.task_id == tid && t.trigger_datetime == dt)).length) ∧
      lookupState tokens2 taskResultC2.task_id
        taskResultC2.trigger_datetime = some taskResultC2.result :=
  ⟨by decide, process_progress_ok_spec progressDbC2 taskResultC2 (by decide)⟩

/-- C7 counterexample: the claim says a message that fails to decode is acked
and dropped.  At the concrete undecodable delivery below, the `?` in
`process_progress` propagates the decode error instead: the iteration
returns the error (terminating the consumer loop) and never acks. -/
theorem decode_failure_not_acked :
    process_progress progressDbC1 (Except.error "not valid json")
      = Except.error "not valid json" ∧
    acksMessage (process_progress progressDbC1
      (Except.error "not valid json")) = false :=
  ⟨rfl, rfl⟩

/-- C7 amended: a decode failure makes the progress ingester propagate the
error out of the consumer loop — the delivery is never acked and the ingester
terminates (to be restarted by the supervisor); the message is not dropped
and processing does not continue. -/
theorem decode_failure_propagates (db : ProgressDB) (e : String) :
    process_progress db (Except.error e) = Except.error e ∧
    acksMessage (process_progress db (Except.error e)) = false :=
  ⟨rfl, rfl⟩

/-! ### The trigger scheduler (`src/server/triggers.rs`) -/

/-- Task priorities from `src/messages.rs`. -/
inductive TaskPriority where
  | BackFill : TaskPriority
  | Low : TaskPriority
  | Normal : TaskPriority
  | High : TaskPriority
deriving DecidableEq

/-- Catchup policy of a trigger (`src/server/api/types.rs`, used throughout
`triggers.rs`). -/
inductive Catchup where
  | None : Catchup
  | Earliest : Catchup
  | Latest : Catchup
  | Random : Catchup
deriving DecidableEq

/-- Entry of the scheduler's min-heap (`src/server/trigger_time.rs`, built in
`Trigger::at`): field order follows the literal in `triggers.rs` lines
77-83. -/
structure TriggerTime where
  scheduled_datetime : DateTime
  trigger_datetime : DateTime
  trigger_id : Uuid
deriving DecidableEq

/-- Abstract model of a parsed `cron::Schedule`: only its successor function
`schedule.after(&x).next().unwrap()` is relevant to the scheduler.  The
`unwrap` in the source is modelled by making `next` total; whether the
library function is in fact total is exactly what claim C6 asks and is not
decidable from this repository's sources. -/
structure CronSchedule where
  next : DateTime → DateTime

/-- A trigger's period (`enum Period` in `triggers.rs`): either a duration in
seconds or a cron schedule. -/
inductive Period where
  | duration : Int → Period
  | cron : CronSchedule → Period

/-- Period advance, `impl Add<&Period> for DateTime<Utc>` (`triggers.rs`
lines 49-58). -/
def advance (p : Period) (x : DateTime) : DateTime :=
  match p with
  | .duration d => x + d
  | .cron s => s.next x

/-- Row of the `trigger` table as selected by the scheduler queries
(`triggers.rs` lines 31-42). -/
structure Trigger where
  id : Uuid
  start_datetime : DateTime
  end_datetime : Option DateTime
  earliest_trigger_datetime : Option DateTime
  latest_trigger_datetime : Option DateTime
  period : Option Int
  cron : Option String
  trigger_offset : Option Int
  catchup : Catchup
deriving DecidableEq

/-- The `Trigger::period` method (`triggers.rs` lines 61-67): parse the cron
expression if one is set, otherwise use the duration.  Cron parsing
(`Schedule::from_str`, external crate) is passed in as a function.  The
source unwraps `self.period` (panicking when both columns are NULL, which
the schema rules out); the model uses a default of 0. -/
def Trigger.periodOf (parse : String → Except String CronSchedule)
    (t : Trigger) : Except String Period :=
  match t.cron with
  | some c => (parse c).map Period.cron
  | none => .ok (.duration (t.period.getD 0))

/-- The `Trigger::offset_duration` method: `trigger_offset` seconds,
defaulting to zero. -/
def Trigger.offset_duration (t : Trigger) : Int :=
  t.trigger_offset.getD 0

/-- The `Trigger::at` method (`at` is reserved in Lean): heap entry for
firing this trigger at `datetime`. -/
def Trigger.atTime (t : Trigger) (datetime : DateTime) : TriggerTime :=
  ⟨datetime + t.offset_duration, datetime, t.id⟩

/-- Row of the `trigger_edge` table (`triggers.rs` lines 195-199). -/
structure TriggerEdgeRow where
  trigger_id : Uuid
  task_id : Uuid
  edge_offset : Option Int
deriving DecidableEq

/-- A `trigger JOIN job` row as the scheduler queries see it: the trigger
columns plus the owning job's `paused` flag. -/
structure TriggerRowJoin where
  trigger : Trigger
  job_paused : Bool
deriving DecidableEq

/-- The slice of the database the trigger scheduler reads and writes. -/
structure SchedState where
  triggers : List TriggerRowJoin
  trigger_edges : List TriggerEdgeRow
  task_edges : List TaskEdge
  tokens : List TokenRow
deriving DecidableEq

/-- Postgres `LEAST(a, $2)` where `a` may be NULL: NULLs are ignored. -/
def pgLeast (o : Option Int) (x : Int) : Option Int :=
  some (min (o.getD x) x)

/-- Postgres `GREATEST(a, $2)` where `a` may be NULL: NULLs are ignored. -/
def pgGreatest (o : Option Int) (x : Int) : Option Int :=
  some (max (o.getD x) x)

/-- The trigger-watermark `UPDATE` of `do_activate_trigger` (`triggers.rs`
lines 238-248), applied to one `trigger JOIN job` row. -/
def activateRowUpdate (tt : TriggerTime) (row : TriggerRowJoin) :
    TriggerRowJoin :=
  if row.trigger.id == tt.trigger_id then
    { row with trigger := { row.trigger with
        latest_trigger_datetime :=
          pgGreatest row.trigger.latest_trigger_datetime tt.trigger_datetime
        earliest_trigger_datetime :=
          pgLeast row.trigger.earliest_trigger_datetime
            tt.trigger_datetime } }
  else row

/-- The `do_activate_trigger` function (`triggers.rs` lines 201-251): inside
the caller's transaction, create/increment one token per `trigger_edge` row
of this trigger (the token's datetime being the firing datetime plus the
edge offset), collect the tokens, then update the trigger's watermarks with
`LEAST`/`GREATEST`. -/
def do_activate_trigger (st : SchedState) (tt : TriggerTime) :
    SchedState × List Token :=
  let edges := st.trigger_edges.filter (fun e => e.trigger_id == tt.trigger_id)
  let folded := edges.foldl (fun (acc : List TokenRow × List Token) e =>
    let token : Token := ⟨e.task_id, tt.trigger_datetime + e.edge_offset.getD 0⟩
    (increment_token st.task_edges acc.1 token, acc.2 ++ [token]))
    (st.tokens, [])
  ({ st with tokens := folded.1
             triggers := st.triggers.map (activateRowUpdate tt) }, folded.2)

/-- Externally visible events of the scheduler: committing the transaction
and publishing a `ProcessToken::Increment(token, priority)` to the token
processor (`send_to_token_processor`, `triggers.rs` lines 337-351). -/
inductive SEvent where
  | commit : SEvent
  | publish : Token → TaskPriority → SEvent
deriving DecidableEq

/-- The `send_to_token_processor` function: one publish per collected token,
in list order, all at the same priority. -/
def send_to_token_processor (tokens_to_tx : List Token)
    (priority : TaskPriority) : List SEvent :=
  tokens_to_tx.map (fun t => SEvent.publish t priority)

/-- The `activate_trigger` function (`triggers.rs` lines 174-193): run
`do_activate_trigger` in a transaction, commit, and only then send the
collected tokens to the token processor. -/
def activate_trigger (st : SchedState) (tt : TriggerTime)
    (priority : TaskPriority) : SchedState × List SEvent :=
  let r := do_activate_trigger st tt
  (r.1, SEvent.commit :: send_to_token_processor r.2 priority)

/-- A live firing from the scheduler main loop (`process_triggers`, lines
160-170): activations from the loop always use `TaskPriority::Normal`. -/
def scheduler_fire (st : SchedState) (tt : TriggerTime) :
    SchedState × List SEvent :=
  activate_trigger st tt TaskPriority.Normal

/-- The catchup walk: the `while next < last` loops of `catchup_trigger`
(`triggers.rs` lines 279-283 and 303-309) step `next` forward by the period
and return the visited datetimes together with the final value of `next`.
The source loop does not guard against a non-increasing period (a negative
or zero `period` makes it diverge); the model's extra guard `next < advance
p next` makes it total, and every theorem below assumes a positive duration
period, where model and source agree. -/
def catchupWalk (p : Period) (last : Int) (next : Int) : List Int × Int :=
  if h : next < last ∧ next < advance p next then
    let r := catchupWalk p last (advance p next)
    (next :: r.1, r.2)
  else ([], next)
termination_by (last - next).toNat
decreasing_by
  obtain ⟨h1, h2⟩ := h
  omega

/-- Start of the main catchup walk (`triggers.rs` lines 291-295):
`latest_trigger_datetime + period` if the trigger has ever fired, otherwise
`start_datetime`. -/
def walkStart (t : Trigger) (p : Period) : Int :=
  match t.latest_trigger_datetime with
  | some latest => advance p latest
  | none => t.start_datetime

/-- End of the main catchup walk (`triggers.rs` lines 297-301):
`min(now, end_datetime)`, or `now` when open-ended. -/
def walkEnd (now : Int) (t : Trigger) : Int :=
  match t.end_datetime with
  | some e => min now e
  | none => now

/-- The datetimes activated by `catchup_trigger` (lines 269-309), plus the
final value of `next`: the backwards-fill walk from `start_datetime` up to
`earliest_trigger_datetime` (only when the start moved backwards and catchup
is not `None`), then the main walk from `walkStart` to `walkEnd` (activating
only when catchup is not `None`, but always advancing `next`). -/
def catchupActivations (now : Int) (t : Trigger) (p : Period) :
    List Int × Int :=
  let phase1 :=
    if t.catchup ≠ Catchup.None then
      match t.earliest_trigger_datetime with
      | some earliest =>
        if t.start_datetime < earliest then
          (catchupWalk p earliest t.start_datetime).1
        else []
      | none => []
    else []
  let w := catchupWalk p (walkEnd now t) (walkStart t p)
  let phase2 := if t.catchup ≠ Catchup.None then w.1 else []
  (phase1 ++ phase2, w.2)

/-- Run `do_activate_trigger` for each datetime in order, accumulating the
collected tokens, as the walks of `catchup_trigger` do. -/
def activateAll (st : SchedState) (t : Trigger) (dts : List Int) :
    SchedState × List Token :=
  dts.foldl (fun acc dt =>
    let r := do_activate_trigger acc.1 (t.atTime dt)
    (r.1, acc.2 ++ r.2)) (st, [])

/-- Stable ascending sort by `trigger_datetime`
(`tokens_to_tx.sort_by_key(|token| token.trigger_datetime)`). -/
def sortTokensAsc (l : List Token) : List Token :=
  l.mergeSort (fun a b => decide (a.trigger_datetime ≤ b.trigger_datetime))

/-- Stable descending sort by `trigger_datetime`
(`sort_by_key(|token| Reverse(token.trigger_datetime))`). -/
def sortTokensDesc (l : List Token) : List Token :=
  l.mergeSort (fun a b => decide (b.trigger_datetime ≤ a.trigger_datetime))

/-- The `catchup_trigger` function (`triggers.rs` lines 253-335).  The
period is the outcome of `Trigger::period()` (its `?` propagates a cron
parse error); `shuffle` stands for `SliceRandom::shuffle(thread_rng())`.
Inside one transaction the two walks activate their datetimes; the next
future fire time is pushed onto the queue when it is within `end_datetime`;
the transaction commits; the collected tokens are ordered according to the
catchup policy (the `assert_eq!` for `Catchup::None` is modelled as an
error) and published to the token processor at `TaskPriority::BackFill`. -/
def catchup_trigger (now : Int) (st : SchedState) (trigger : Trigger)
    (periodR : Except String Period) (shuffle : List Token → List Token)
    (queue : List TriggerTime) :
    Except String (SchedState × List TriggerTime × List SEvent) :=
  match periodR with
  | .error e => .error e
  | .ok period =>
    let acts := catchupActivations now trigger period
    let r := activateAll st trigger acts.1
    let tokens_to_tx := r.2
    let queue' :=
      if trigger.end_datetime.isNone
          || decide (acts.2 < trigger.end_datetime.getD 0) then
        queue ++ [trigger.atTime acts.2]
      else queue
    match trigger.catchup with
    | Catchup.None =>
      if tokens_to_tx.isEmpty then .ok (r.1, queue', [SEvent.commit])
      else .error "Catchup None should never have any tokens_to_tx"
    | Catchup.Earliest =>
      .ok (r.1, queue', SEvent.commit ::
        send_to_token_processor (sortTokensAsc tokens_to_tx)
          TaskPriority.BackFill)
    | Catchup.Latest =>
      .ok (r.1, queue', SEvent.commit ::
        send_to_token_processor (sortTokensDesc tokens_to_tx)
          TaskPriority.BackFill)
    | Catchup.Random =>
      .ok (r.1, queue', SEvent.commit ::
        send_to_token_processor (shuffle tokens_to_tx)
          TaskPriority.BackFill)

/-- The `update_trigger` function (`triggers.rs` lines 353-398): prune every
heap entry of the updated trigger (drain-filter-reextend), reload the
trigger row joined against its unpaused job, and run catchup on it; if the
row is missing or the job is paused, leave the heap pruned. -/
def update_trigger (now : Int) (st : SchedState) (uuid : Uuid)
    (parse : String → Except String CronSchedule)
    (shuffle : List Token → List Token) (queue : List TriggerTime) :
    Except String (SchedState × List TriggerTime × List SEvent) :=
  let pruned := queue.filter (fun tt => !(tt.trigger_id == uuid))
  match st.triggers.find? (fun row =>
      row.trigger.id == uuid && !row.job_paused) with
  | some row =>
    catchup_trigger now st row.trigger (row.trigger.periodOf parse)
      shuffle pruned
  | none => .ok (st, pruned, [])

/-- The `restore_triggers` loop (`triggers.rs` lines 400-431): catchup every
unpaused trigger in turn; the `?` on a failing `catchup_trigger` propagates
the error, abandoning the rest of the list. -/
def restoreLoop (now : Int) (parse : String → Except String CronSchedule)
    (shuffle : List Token → List Token) :
    List TriggerRowJoin → SchedState → List TriggerTime →
      Except String (SchedState × List TriggerTime)
  | [], st, queue => .ok (st, queue)
  | row :: rest, st, queue =>
    if row.job_paused then restoreLoop now parse shuffle rest st queue
    else
      match catchup_trigger now st row.trigger (row.trigger.periodOf parse)
          shuffle queue with
      | .error e => .error e
      | .ok (st', q', _) => restoreLoop now parse shuffle rest st' q'

/-! ### The catchup walk: step counting -/

theorem catchupWalk_pos (p : Period) (last next : Int)
    (h : next < last ∧ next < advance p next) :
    catchupWalk p last next
      = (next :: (catchupWalk p last (advance p next)).1,
         (catchupWalk p last (advance p next)).2) := by
  rw [catchupWalk, dif_pos h]

theorem catchupWalk_neg (p : Period) (last next : Int)
    (h : ¬ (next < last ∧ next < advance p next)) :
    catchupWalk p last next = ([], next) := by
  rw [catchupWalk, dif_neg h]

theorem ceil_steps_zero (P last x : Int) (hP : 0 < P) (hxl : ¬ x < last) :
    ((last - x + P - 1) / P).toNat = 0 := by
  have h1 : last - x + P - 1 < 1 * P := by omega
  have h2 : (last - x + P - 1) / P < 1 := (Int.ediv_lt_iff_lt_mul hP).mpr h1
  omega

/-- Length of the duration-period walk: the number of steps strictly before
`last`, starting at `next` with stride `P > 0`, is `⌈(last − next)/P⌉`
(clamped at zero), written with floor division as
`((last − next + P − 1) / P).toNat`. -/
theorem catchupWalk_duration_length (P last : Int) (hP : 0 < P)
    (next : Int) :
    ((catchupWalk (Period.duration P) last next).1).length
      = ((last - next + P - 1) / P).toNat := by
  have main : ∀ m : Nat, ∀ x : Int, (last - x).toNat ≤ m →
      ((catchupWalk (Period.duration P) last x).1).length
        = ((last - x + P - 1) / P).toNat := by
    intro m
    induction m with
    | zero =>
      intro x hle
      have hxl : ¬ x < last := by omega
      rw [catchupWalk_neg _ _ _ (fun hc => hxl hc.1)]
      rw [ceil_steps_zero P last x hP hxl]
      rfl
    | succ k ih =>
      intro x hle
      by_cases hx : x < last
      · have hadv : x < advance (Period.duration P) x := by
          simp only [advance]; omega
        rw [catchupWalk_pos _ _ _ ⟨hx, hadv⟩]
        simp only [List.length_cons]
        have hrec := ih (advance (Period.duration P) x)
          (by simp only [advance]; omega)
        rw [hrec]
        simp only [advance]
        have hb : last - (x + P) + P - 1 = last - x - 1 := by ring
        have hb2 : last - x + P - 1 = last - x - 1 + 1 * P := by ring
        rw [hb, hb2]
        have hstep : (last - x - 1 + 1 * P) / P = (last - x - 1) / P + 1 :=
          Int.add_mul_ediv_right _ 1 (by omega)
        rw [hstep]
        have hq : 0 ≤ (last - x - 1) / P :=
          Int.ediv_nonneg (by omega) (le_of_lt hP)
        omega
      · rw [catchupWalk_neg _ _ _ (fun hc => hx hc.1)]
        rw [ceil_steps_zero P last x hP hx]
        rfl
  exact main ((last - next).toNat) next le_rfl

/-! ### C3: how many datetimes does catchup activate? -/

/-- A trigger whose start datetime has moved backwards: start 0, watermarks
earliest = latest = 20, period 10 seconds, open-ended, catchup Earliest. -/
def triggerC3 : Trigger :=
  ⟨3, 0, none, some 20, some 20, some 10, none, none, Catchup.Earliest⟩

/-- C3 counterexample: the claim says catchup activates exactly
`⌈(min(now,end) − latest-or-start)/P⌉` datetimes.  For `triggerC3` at
`now = 30` that formula gives 0 (the main walk starts at latest + P = 30 and
30 < 30 fails), but catchup activates 2 datetimes (0 and 10) in the
backwards-fill walk from the moved-back `start_datetime` up to
`earliest_trigger_datetime` (`triggers.rs` lines 269-286), which the claimed
formula does not count. -/
theorem catchup_count_counterexample :
    ((catchupActivations 30 triggerC3 (Period.duration 10)).1).length = 2 ∧
    ((walkEnd 30 triggerC3 - walkStart triggerC3 (Period.duration 10)
      + 10 - 1) / 10).toNat = 0 ∧
    ((catchupActivations 30 triggerC3 (Period.duration 10)).1).length ≠
      ((walkEnd 30 triggerC3 - walkStart triggerC3 (Period.duration 10)
        + 10 - 1) / 10).toNat := by
  have hl1 : ((catchupWalk (Period.duration 10) 20 0).1).length = 2 := by
    rw [catchupWalk_duration_length 10 20 (by decide) 0]
    decide
  have hl2 : ((catchupWalk (Period.duration 10) 30 30).1).length = 0 := by
    rw [catchupWalk_duration_length 10 30 (by decide) 30]
    decide
  have hA : ((catchupActivations 30 triggerC3 (Period.duration 10)).1).length
      = 2 := by
    simp only [catchupActivations, triggerC3, walkEnd, walkStart, advance]
    norm_num
    simp [hl1, hl2]
  refine ⟨hA, by decide, ?_⟩
  rw [hA]
  decide

/-- C3 amended: for a positive duration period `P`, catchup activates zero
datetimes when `catchup = None`; otherwise it activates
`⌈(min(now,end) − s)/P⌉` datetimes in the main walk — where `s` is
`latest_trigger_datetime + P` if the trigger has ever fired and
`start_datetime` otherwise — **plus**, when the start datetime has moved
backwards (`start_datetime < earliest_trigger_datetime`), another
`⌈(earliest − start)/P⌉` datetimes from the backwards-fill walk.  All
ceilings clamp at zero, written via floor division. -/
theorem catchup_activation_count (now : Int) (t : Trigger) (P : Int)
    (hP : 0 < P) :
    ((catchupActivations now t (Period.duration P)).1).length
      = if t.catchup = Catchup.None then 0 else
          (match t.earliest_trigger_datetime with
           | some e => if t.start_datetime < e then
               ((e - t.start_datetime + P - 1) / P).toNat else 0
           | none => 0)
          + ((walkEnd now t - walkStart t (Period.duration P) + P - 1)
              / P).toNat := by
  unfold catchupActivations
  by_cases hc : t.catchup = Catchup.None
  · simp [hc]
  · rw [if_neg hc]
    have hne : t.catchup ≠ Catchup.None := hc
    simp only [if_pos hne, List.length_append]
    congr 1
    · cases he : t.earliest_trigger_datetime with
      | none => rfl
      | some e =>
        dsimp only
        by_cases hs : t.start_datetime < e
        · rw [if_pos hs, if_pos hs]
          exact catchupWalk_duration_length P e hP t.start_datetime
        · rw [if_neg hs, if_neg hs]
          rfl
    · exact catchupWalk_duration_length P (walkEnd now t) hP
        (walkStart t (Period.duration P))

/-- A trigger that has fired up to datetime 0, period 10, open-ended,
catchup Earliest, with no backwards start move. -/
def triggerC3W : Trigger :=
  ⟨4, 0, none, none, some 0, some 10, none, none, Catchup.Earliest⟩

/-- Witness for the amended C3 count at `triggerC3W`, `now = 35`: the main
walk visits 10, 20, 30 — three activations, matching the ceiling. -/
theorem catchup_activation_count_witness :
    (0 : Int) < 10 ∧
    ((catchupActivations 35 triggerC3W (Period.duration 10)).1).length
      = if triggerC3W.catchup = Catchup.None then 0 else
          (match triggerC3W.earliest_trigger_datetime with
           | some e => if triggerC3W.start_datetime < e then
               ((e - triggerC3W.start_datetime + 10 - 1) / 10).toNat else 0
           | none => 0)
          + ((walkEnd 35 triggerC3W
              - walkStart triggerC3W (Period.duration 10) + 10 - 1)
              / 10).toNat :=
  ⟨by decide, catchup_activation_count 35 triggerC3W 10 (by decide)⟩

/-! ### C10 and C8: heap frame and error propagation of trigger updates -/

theorem queue_push_shape (trigger : Trigger) (queue : List TriggerTime)
    (c : Bool) (x : Int) :
    ∃ extra,
      (if c then queue ++ [trigger.atTime x] else queue) = queue ++ extra ∧
      ∀ tt ∈ extra, tt.trigger_id = trigger.id := by
  cases c with
  | true =>
    refine ⟨[trigger.atTime x], by simp, ?_⟩
    intro tt ht
    rw [List.mem_singleton] at ht
    subst ht
    rfl
  | false => exact ⟨[], by simp, by simp⟩

/-- Every `Except.ok` outcome of `catchup_trigger` returns the input queue
plus at most one pushed entry, and any pushed entry belongs to the trigger
being caught up. -/
theorem catchup_trigger_queue_shape (now : Int) (st : SchedState)
    (trigger : Trigger) (periodR : Except String Period)
    (shuffle : List Token → List Token) (queue : List TriggerTime)
    (st' : SchedState) (q' : List TriggerTime) (evs : List SEvent)
    (h : catchup_trigger now st trigger periodR shuffle queue
      = Except.ok (st', q', evs)) :
    ∃ extra, q' = queue ++ extra ∧
      ∀ tt ∈ extra, tt.trigger_id = trigger.id := by
  cases periodR with
  | error e => simp [catchup_trigger] at h
  | ok p =>
    unfold catchup_trigger at h
    dsimp only at h
    have hq : q' =
        (if (trigger.end_datetime.isNone
            || decide ((catchupActivations now trigger p).2
              < trigger.end_datetime.getD 0)) = true then
          queue ++ [trigger.atTime (catchupActivations now trigger p).2]
        else queue) := by
      cases hcu : trigger.catchup with
      | None =>
        rw [hcu] at h
        dsimp only at h
        by_cases hemp :
            ((activateAll st trigger
              (catchupActivations now trigger p).1).2).isEmpty = true
        · rw [if_pos hemp] at h
          simp only [Except.ok.injEq, Prod.mk.injEq] at h
          exact h.2.1.symm
        · rw [if_neg hemp] at h
          simp at h
      | Earliest =>
        rw [hcu] at h
        dsimp only at h
        simp only [Except.ok.injEq, Prod.mk.injEq] at h
        exact h.2.1.symm
      | Latest =>
        rw [hcu] at h
        dsimp only at h
        simp only [Except.ok.injEq, Prod.mk.injEq] at h
        exact h.2.1.symm
      | Random =>
        rw [hcu] at h
        dsimp only at h
        simp only [Except.ok.injEq, Prod.mk.injEq] at h
        exact h.2.1.symm
    obtain ⟨extra, hex, hall⟩ := queue_push_shape trigger queue
      (trigger.end_datetime.isNone
        || decide ((catchupActivations now trigger p).2
          < trigger.end_datetime.getD 0))
      (catchupActivations now trigger p).2
    exact ⟨extra, by rw [hq]; exact hex, hall⟩

/-- C10: `update_trigger` removes exactly the heap entries of the updated
trigger id and preserves every other trigger's entries: the new queue is the
pruned queue plus entries that all carry the updated id, and filtering out
that id yields exactly the same list as filtering the original queue. -/
theorem update_trigger_heap_frame (now : Int) (st : SchedState) (uuid : Uuid)
    (parse : String → Except String CronSchedule)
    (shuffle : List Token → List Token) (queue : List TriggerTime)
    (st' : SchedState) (q' : List TriggerTime) (evs : List SEvent)
    (h : update_trigger now st uuid parse shuffle queue
      = Except.ok (st', q', evs)) :
    (∃ extra,
      q' = queue.filter (fun tt => !(tt.trigger_id == uuid)) ++ extra ∧
      ∀ tt ∈ extra, tt.trigger_id = uuid) ∧
    q'.filter (fun tt => !(tt.trigger_id == uuid))
      = queue.filter (fun tt => !(tt.trigger_id == uuid)) := by
  unfold update_trigger at h
  cases hf : st.triggers.find? (fun row =>
      row.trigger.id == uuid && !row.job_paused) with
  | none =>
    rw [hf] at h
    dsimp only at h
    simp only [Except.ok.injEq, Prod.mk.injEq] at h
    obtain ⟨hst, hq, hevs⟩ := h
    constructor
    · exact ⟨[], by rw [← hq]; simp, by simp⟩
    · rw [← hq]
      rw [List.filter_filter]
      simp
  | some row =>
    rw [hf] at h
    dsimp only at h
    have hrowid : row.trigger.id = uuid := by
      have hp := List.find?_some hf
      simp only [Bool.and_eq_true, beq_iff_eq] at hp
      exact hp.1
    obtain ⟨extra, hq, hall⟩ := catchup_trigger_queue_shape _ _ _ _ _ _ _ _ _ h
    have hall' : ∀ tt ∈ extra, tt.trigger_id = uuid :=
      fun tt ht => (hall tt ht).trans hrowid
    constructor
    · exact ⟨extra, hq, hall'⟩
    · rw [hq, List.filter_append]
      have hextra : extra.filter (fun tt => !(tt.trigger_id == uuid)) = [] := by
        rw [List.filter_eq_nil_iff]
        intro tt ht
        simp [hall' tt ht]
      rw [hextra, List.filter_filter]
      simp

/-- Heap entries for C10's witness: one entry of the updated trigger 5 and
one of an unrelated trigger 6. -/
def queueC10 : List TriggerTime := [⟨10, 10, 5⟩, ⟨20, 20, 6⟩]

/-- A scheduler DB with no row for trigger 5 (it was deleted or paused). -/
def schedStC10 : SchedState := ⟨[], [], [], []⟩

/-- Witness for C10 at a concrete heap: updating trigger 5 when its row is
gone prunes exactly its entry and leaves trigger 6's entry alone. -/
theorem update_trigger_heap_frame_witness :
    update_trigger 0 schedStC10 5 (fun c => Except.error c) id queueC10
      = Except.ok (schedStC10, [(⟨20, 20, 6⟩ : TriggerTime)], []) ∧
    ((∃ extra,
      [(⟨20, 20, 6⟩ : TriggerTime)]
        = queueC10.filter (fun tt => !(tt.trigger_id == 5)) ++ extra ∧
      ∀ tt ∈ extra, tt.trigger_id = 5) ∧
    ([(⟨20, 20, 6⟩ : TriggerTime)]).filter (fun tt => !(tt.trigger_id == 5))
      = queueC10.filter (fun tt => !(tt.trigger_id == 5))) :=
  ⟨rfl, update_trigger_heap_frame 0 schedStC10 5 (fun c => Except.error c)
    id queueC10 schedStC10 [(⟨20, 20, 6⟩ : TriggerTime)] [] rfl⟩

/-- A trigger with an invalid cron expression, job not paused. -/
def triggerC8 : Trigger :=
  ⟨7, 0, none, none, none, none, some "bad cron", none, Catchup.Earliest⟩

/-- Scheduler DB containing only the bad-cron trigger (unpaused). -/
def schedStC8 : SchedState := ⟨[⟨triggerC8, false⟩], [], [], []⟩

/-- A cron parser that rejects every expression, standing for
`Schedule::from_str` on a malformed expression. -/
def parseC8 : String → Except String CronSchedule :=
  fun _ => Except.error "invalid cron expression"

/-- C8 counterexample: the claim says a malformed schedule is logged and only
the offending trigger is skipped while scheduling continues.  At this
concrete input the cron parse error instead propagates out of
`update_trigger` (through the `?` in `Trigger::period` and
`catchup_trigger`): the whole scheduler operation returns the error rather
than skipping the trigger. -/
theorem update_trigger_bad_cron_fails :
    update_trigger 0 schedStC8 7 parseC8 id [⟨1, 1, 7⟩]
      = Except.error "invalid cron expression" := rfl

/-- C8 amended: a malformed cron expression is not skipped: the parse error
propagates out of `Trigger::period` and `catchup_trigger`, so the update
fails as a whole, and during `restore_triggers` it aborts the restore loop —
the remaining triggers in the list are never processed.  (True to the claim,
nothing on this path pauses the job.) -/
theorem bad_cron_error_propagates (now : Int) (st : SchedState) (uuid : Uuid)
    (parse : String → Except String CronSchedule)
    (shuffle : List Token → List Token) (queue : List TriggerTime)
    (row : TriggerRowJoin) (c e : String)
    (hfind : st.triggers.find? (fun r => r.trigger.id == uuid && !r.job_paused)
      = some row)
    (hcron : row.trigger.cron = some c)
    (hparse : parse c = Except.error e) :
    update_trigger now st uuid parse shuffle queue = Except.error e ∧
    ∀ (rest : List TriggerRowJoin) (st0 : SchedState)
      (q0 : List TriggerTime),
      row.job_paused = false →
      restoreLoop now parse shuffle (row :: rest) st0 q0
        = Except.error e := by
  have hcat : ∀ (st0 : SchedState) (q0 : List TriggerTime),
      catchup_trigger now st0 row.trigger (row.trigger.periodOf parse)
        shuffle q0 = Except.error e := by
    intro st0 q0
    unfold Trigger.periodOf
    rw [hcron]
    dsimp only
    rw [hparse]
    rfl
  constructor
  · unfold update_trigger
    rw [hfind]
    dsimp only
    exact hcat st _
  · intro rest st0 q0 hnp
    unfold restoreLoop
    rw [hnp, hcat st0 q0]
    simp

/-! ### C5: watermarks move monotonically, publish only after commit -/

theorem activateRowUpdate_id (tt : TriggerTime) (row : TriggerRowJoin) :
    (activateRowUpdate tt row).trigger.id = row.trigger.id := by
  unfold activateRowUpdate
  by_cases h : (row.trigger.id == tt.trigger_id) = true
  · rw [if_pos h]
  · rw [if_neg h]

theorem activateRowUpdate_paused (tt : TriggerTime) (row : TriggerRowJoin) :
    (activateRowUpdate tt row).job_paused = row.job_paused := by
  unfold activateRowUpdate
  by_cases h : (row.trigger.id == tt.trigger_id) = true
  · rw [if_pos h]
  · rw [if_neg h]

/-- How one activation relates a `trigger JOIN job` row to its successor:
identity and paused flag are untouched, `earliest_trigger_datetime` can only
decrease (staying set), `latest_trigger_datetime` can only increase. -/
def WatermarkEvolution (old new : TriggerRowJoin) : Prop :=
  new.trigger.id = old.trigger.id ∧
  new.job_paused = old.job_paused ∧
  (∀ e, old.trigger.earliest_trigger_datetime = some e →
    ∃ e', new.trigger.earliest_trigger_datetime = some e' ∧ e' ≤ e) ∧
  (∀ l, old.trigger.latest_trigger_datetime = some l →
    ∃ l', new.trigger.latest_trigger_datetime = some l' ∧ l ≤ l')

theorem watermarkEvolution_refl (row : TriggerRowJoin) :
    WatermarkEvolution row row :=
  ⟨rfl, rfl, fun e he => ⟨e, he, le_refl e⟩, fun l hl => ⟨l, hl, le_refl l⟩⟩

theorem watermarkEvolution_trans {a b c : TriggerRowJoin}
    (h1 : WatermarkEvolution a b) (h2 : WatermarkEvolution b c) :
    WatermarkEvolution a c := by
  obtain ⟨hid1, hp1, he1, hl1⟩ := h1
  obtain ⟨hid2, hp2, he2, hl2⟩ := h2
  refine ⟨hid2.trans hid1, hp2.trans hp1, ?_, ?_⟩
  · intro e he
    obtain ⟨e1, he1', hle1⟩ := he1 e he
    obtain ⟨e2, he2', hle2⟩ := he2 e1 he1'
    exact ⟨e2, he2', le_trans hle2 hle1⟩
  · intro l hl
    obtain ⟨l1, hl1', hle1⟩ := hl1 l hl
    obtain ⟨l2, hl2', hle2⟩ := hl2 l1 hl1'
    exact ⟨l2, hl2', le_trans hle1 hle2⟩

theorem watermarkEvolution_activateRowUpdate (tt : TriggerTime)
    (row : TriggerRowJoin) :
    WatermarkEvolution row (activateRowUpdate tt row) := by
  refine ⟨activateRowUpdate_id tt row, activateRowUpdate_paused tt row,
    ?_, ?_⟩
  · intro e he
    unfold activateRowUpdate
    by_cases h : (row.trigger.id == tt.trigger_id) = true
    · rw [if_pos h]
      refine ⟨min e tt.trigger_datetime, ?_, min_le_left _ _⟩
      simp only [pgLeast, he, Option.getD_some]
    · rw [if_neg h]
      exact ⟨e, he, le_refl e⟩
  · intro l hl
    unfold activateRowUpdate
    by_cases h : (row.trigger.id == tt.trigger_id) = true
    · rw [if_pos h]
      refine ⟨max l tt.trigger_datetime, ?_, le_max_left _ _⟩
      simp only [pgGreatest, hl, Option.getD_some]
    · rw [if_neg h]
      exact ⟨l, hl, le_refl l⟩

/-- A sequence of scheduler activations, each at its own priority
(`activate_trigger` is invoked repeatedly by the scheduler loop and by
catchup). -/
def runActivations (st : SchedState) :
    List (TriggerTime × TaskPriority) → SchedState
  | [] => st
  | x :: rest => runActivations (activate_trigger st x.1 x.2).1 rest

theorem runActivations_triggers_length (acts : List (TriggerTime × TaskPriority)) :
    ∀ st : SchedState,
      ((runActivations st acts).triggers).length = st.triggers.length := by
  induction acts with
  | nil => intro st; rfl
  | cons x rest ih =>
    intro st
    show ((runActivations (activate_trigger st x.1 x.2).1 rest).triggers).length
      = st.triggers.length
    rw [ih]
    show (st.triggers.map (activateRowUpdate x.1)).length = st.triggers.length
    rw [List.length_map]

theorem runActivations_mono (acts : List (TriggerTime × TaskPriority)) :
    ∀ (st : SchedState) (i : Nat) (h1 : i < st.triggers.length)
      (h2 : i < ((runActivations st acts).triggers).length),
      WatermarkEvolution (st.triggers.get ⟨i, h1⟩)
        ((runActivations st acts).triggers.get ⟨i, h2⟩) := by
  induction acts with
  | nil => intro st i h1 h2; exact watermarkEvolution_refl _
  | cons x rest ih =>
    intro st i h1 h2
    have hmid : i < (((activate_trigger st x.1 x.2).1).triggers).length := by
      show i < (st.triggers.map (activateRowUpdate x.1)).length
      rw [List.length_map]
      exact h1
    have hstep : WatermarkEvolution (st.triggers.get ⟨i, h1⟩)
        ((((activate_trigger st x.1 x.2).1).triggers).get ⟨i, hmid⟩) := by
      have hget : (((activate_trigger st x.1 x.2).1).triggers).get ⟨i, hmid⟩
          = activateRowUpdate x.1 (st.triggers.get ⟨i, h1⟩) := by
        show ((st.triggers.map (activateRowUpdate x.1)).get
          ⟨i, hmid⟩) = activateRowUpdate x.1 (st.triggers.get ⟨i, h1⟩)
        simp [List.get_map]
      rw [hget]
      exact watermarkEvolution_activateRowUpdate x.1 _
    exact watermarkEvolution_trans hstep (ih _ i hmid h2)

/-- C5: `activate_trigger` performs the token increments and the watermark
update in the same transaction — its state change carries both before the
single commit event — publishes the collected tokens only after the commit
(the trace is literally `commit` followed by the publishes), the watermark
write is exactly `earliest = LEAST(earliest, t)` and
`latest = GREATEST(latest, t)` on the activated trigger's row, and across
any sequence of activations each trigger row's `earliest_trigger_datetime`
only decreases and `latest_trigger_datetime` only increases. -/
theorem activate_trigger_watermarks (st : SchedState) (tt : TriggerTime)
    (pr : TaskPriority) :
    (activate_trigger st tt pr).2
      = SEvent.commit ::
        send_to_token_processor (do_activate_trigger st tt).2 pr ∧
    ((activate_trigger st tt pr).1).triggers
      = st.triggers.map (activateRowUpdate tt) ∧
    (∀ row : TriggerRowJoin, row.trigger.id = tt.trigger_id →
      (activateRowUpdate tt row).trigger.earliest_trigger_datetime
        = pgLeast row.trigger.earliest_trigger_datetime tt.trigger_datetime ∧
      (activateRowUpdate tt row).trigger.latest_trigger_datetime
        = pgGreatest row.trigger.latest_trigger_datetime
            tt.trigger_datetime) ∧
    (∀ (acts : List (TriggerTime × TaskPriority)) (i : Nat)
      (h1 : i < st.triggers.length)
      (h2 : i < ((runActivations st acts).triggers).length),
      WatermarkEvolution (st.triggers.get ⟨i, h1⟩)
        ((runActivations st acts).triggers.get ⟨i, h2⟩)) := by
  refine ⟨rfl, rfl, ?_, fun acts => runActivations_mono acts st⟩
  intro row hid
  have h : (row.trigger.id == tt.trigger_id) = true := by
    simp [hid]
  unfold activateRowUpdate
  rw [if_pos h]
  exact ⟨rfl, rfl⟩

/-- A scheduler DB with one unpaused trigger (id 1) whose watermarks are
both 3, for the C5 witness. -/
def schedStC5 : SchedState :=
  ⟨[⟨⟨1, 0, none, some 3, some 3, some 10, none, none, Catchup.Earliest⟩,
    false⟩], [], [], []⟩

/-- Witness for C5: the statement instantiated at `schedStC5` and a firing
of trigger 1 at datetime 5, together with the monotonicity consequence
discharged at the one-activation sequence and row index 0. -/
theorem activate_trigger_watermarks_witness :
    ((activate_trigger schedStC5 ⟨5, 5, 1⟩ TaskPriority.Normal).2
      = SEvent.commit ::
        send_to_token_processor
          (do_activate_trigger schedStC5 ⟨5, 5, 1⟩).2 TaskPriority.Normal ∧
    ((activate_trigger schedStC5 ⟨5, 5, 1⟩ TaskPriority.Normal).1).triggers
      = schedStC5.triggers.map (activateRowUpdate ⟨5, 5, 1⟩) ∧
    (∀ row : TriggerRowJoin, row.trigger.id = (1 : Uuid) →
      (activateRowUpdate ⟨5, 5, 1⟩ row).trigger.earliest_trigger_datetime
        = pgLeast row.trigger.earliest_trigger_datetime 5 ∧
      (activateRowUpdate ⟨5, 5, 1⟩ row).trigger.latest_trigger_datetime
        = pgGreatest row.trigger.latest_trigger_datetime 5) ∧
    (∀ (acts : List (TriggerTime × TaskPriority)) (i : Nat)
      (h1 : i < schedStC5.triggers.length)
      (h2 : i < ((runActivations schedStC5 acts).triggers).length),
      WatermarkEvolution (schedStC5.triggers.get ⟨i, h1⟩)
        ((runActivations schedStC5 acts).triggers.get ⟨i, h2⟩))) ∧
    WatermarkEvolution (schedStC5.triggers.get ⟨0, by decide⟩)
      ((runActivations schedStC5
        [(⟨5, 5, 1⟩, TaskPriority.Normal)]).triggers.get ⟨0, by decide⟩) :=
  ⟨activate_trigger_watermarks schedStC5 ⟨5, 5, 1⟩ TaskPriority.Normal,
   (activate_trigger_watermarks schedStC5 ⟨5, 5, 1⟩
     TaskPriority.Normal).2.2.2 [(⟨5, 5, 1⟩, TaskPriority.Normal)] 0
     (by decide) (by decide)⟩

/-! ### C4: catchup token-ordering policies and priorities -/

/-- The tokens collected (in DB walk order) by one run of
`catchup_trigger`, before the ordering policy is applied. -/
def catchupCollectedTokens (now : Int) (st : SchedState) (t : Trigger)
    (p : Period) : List Token :=
  (activateAll st t (catchupActivations now t p).1).2

theorem sortTokensAsc_perm (l : List Token) :
    List.Perm (sortTokensAsc l) l :=
  List.mergeSort_perm l _

theorem sortTokensDesc_perm (l : List Token) :
    List.Perm (sortTokensDesc l) l :=
  List.mergeSort_perm l _

theorem sortTokensAsc_sorted (l : List Token) :
    List.Pairwise (fun a b : Token =>
      a.trigger_datetime ≤ b.trigger_datetime) (sortTokensAsc l) := by
  have h := @List.sorted_mergeSort Token
    (fun a b : Token => decide (a.trigger_datetime ≤ b.trigger_datetime))
    (fun a b c hab hbc => by
      simp only [decide_eq_true_eq] at *
      exact le_trans hab hbc)
    (fun a b => by
      simp only [Bool.or_eq_true, decide_eq_true_eq]
      exact le_total _ _)
    l
  exact h.imp (fun hab => by simpa using hab)

theorem sortTokensDesc_sorted (l : List Token) :
    List.Pairwise (fun a b : Token =>
      b.trigger_datetime ≤ a.trigger_datetime) (sortTokensDesc l) := by
  have h := @List.sorted_mergeSort Token
    (fun a b : Token => decide (b.trigger_datetime ≤ a.trigger_datetime))
    (fun a b c hab hbc => by
      simp only [decide_eq_true_eq] at *
      exact le_trans hbc hab)
    (fun a b => by
      simp only [Bool.or_eq_true, decide_eq_true_eq]
      exact le_total _ _)
    l
  exact h.imp (fun hab => by simpa using hab)

theorem catchupCollectedTokens_none (now : Int) (st : SchedState)
    (t : Trigger) (p : Period) (hcu : t.catchup = Catchup.None) :
    catchupCollectedTokens now st t p = [] := by
  unfold catchupCollectedTokens catchupActivations
  rw [hcu]
  simp [activateAll]


/-- The state after the catchup walks have activated their datetimes. -/
def catchupNewState (now : Int) (st : SchedState) (t : Trigger)
    (p : Period) : SchedState :=
  (activateAll st t (catchupActivations now t p).1).1

/-- The queue after catchup pushed the next future fire time (when it fits
within `end_datetime`). -/
def catchupNewQueue (now : Int) (t : Trigger) (p : Period)
    (queue : List TriggerTime) : List TriggerTime :=
  if t.end_datetime.isNone
      || decide ((catchupActivations now t p).2 < t.end_datetime.getD 0) then
    queue ++ [t.atTime (catchupActivations now t p).2]
  else queue

/-- The collected backfill tokens after the ordering policy was applied. -/
def catchupOrderedTokens (now : Int) (st : SchedState) (t : Trigger)
    (p : Period) (shuffle : List Token → List Token) : List Token :=
  match t.catchup with
  | Catchup.None => []
  | Catchup.Earliest => sortTokensAsc (catchupCollectedTokens now st t p)
  | Catchup.Latest => sortTokensDesc (catchupCollectedTokens now st t p)
  | Catchup.Random => shuffle (catchupCollectedTokens now st t p)

/-- With a successfully computed period, `catchup_trigger` never fails (in
particular the `Catchup::None` assertion holds) and returns the walked
state, the queue with the next fire pushed, and a commit followed by the
policy-ordered publishes at `BackFill`. -/
theorem catchup_trigger_ok_eq (now : Int) (st : SchedState) (t : Trigger)
    (p : Period) (shuffle : List Token → List Token)
    (queue : List TriggerTime) :
    catchup_trigger now st t (Except.ok p) shuffle queue
      = Except.ok (catchupNewState now st t p, catchupNewQueue now t p queue,
          SEvent.commit :: send_to_token_processor
            (catchupOrderedTokens now st t p shuffle)
            TaskPriority.BackFill) := by
  unfold catchup_trigger catchupNewState catchupNewQueue
    catchupOrderedTokens catchupCollectedTokens
  dsimp only
  cases hcu : t.catchup with
  | None =>
    have hempty := catchupCollectedTokens_none now st t p hcu
    unfold catchupCollectedTokens at hempty
    rw [hempty]
    rfl
  | Earliest => rfl
  | Latest => rfl
  | Random => rfl

/-- C4: after collecting its backfill tokens, catchup posts them ordered by
policy — ascending by `trigger_datetime` for `Earliest`, descending for
`Latest`, an arbitrary permutation for `Random` (the source shuffles with
`thread_rng`, modelled by the `shuffle` parameter, assumed to permute), and
an empty list for `None` (the `assert_eq!` holds, so no error is raised) —
every backfilled token is published at `TaskPriority::BackFill` after the
commit, while a live firing from the scheduler loop publishes at
`TaskPriority::Normal`. -/
theorem catchup_ordering_policy (now : Int) (st : SchedState)
    (trigger : Trigger) (p : Period) (shuffle : List Token → List Token)
    (queue : List TriggerTime)
    (hsh : ∀ l : List Token, List.Perm (shuffle l) l) :
    (∃ st' q' toks,
      catchup_trigger now st trigger (Except.ok p) shuffle queue
        = Except.ok (st', q',
            SEvent.commit ::
              send_to_token_processor toks TaskPriority.BackFill) ∧
      List.Perm toks (catchupCollectedTokens now st trigger p) ∧
      (trigger.catchup = Catchup.Earliest →
        List.Pairwise (fun a b : Token =>
          a.trigger_datetime ≤ b.trigger_datetime) toks) ∧
      (trigger.catchup = Catchup.Latest →
        List.Pairwise (fun a b : Token =>
          b.trigger_datetime ≤ a.trigger_datetime) toks) ∧
      (trigger.catchup = Catchup.None → toks = [])) ∧
    (∀ tt : TriggerTime, (scheduler_fire st tt).2
      = SEvent.commit ::
        send_to_token_processor (do_activate_trigger st tt).2
          TaskPriority.Normal) := by
  refine ⟨?_, fun tt => rfl⟩
  refine ⟨catchupNewState now st trigger p,
    catchupNewQueue now trigger p queue,
    catchupOrderedTokens now st trigger p shuffle,
    catchup_trigger_ok_eq now st trigger p shuffle queue, ?_, ?_, ?_, ?_⟩
  · cases hcu : trigger.catchup with
    | None =>
      unfold catchupOrderedTokens
      rw [hcu, catchupCollectedTokens_none now st trigger p hcu]
    | Earliest =>
      unfold catchupOrderedTokens
      rw [hcu]
      exact sortTokensAsc_perm _
    | Latest =>
      unfold catchupOrderedTokens
      rw [hcu]
      exact sortTokensDesc_perm _
    | Random =>
      unfold catchupOrderedTokens
      rw [hcu]
      exact hsh _
  · intro hc
    unfold catchupOrderedTokens
    rw [hc]
    exact sortTokensAsc_sorted _
  · intro hc
    unfold catchupOrderedTokens
    rw [hc]
    exact sortTokensDesc_sorted _
  · intro hc
    unfold catchupOrderedTokens
    rw [hc]

/-- Witness for C4: catchup on `triggerC3W` (policy Earliest) over the empty
scheduler DB at `now = 35`, with the identity permutation standing in for
the shuffle. -/
theorem catchup_ordering_policy_witness :
    (∃ st' q' toks,
      catchup_trigger 35 schedStC10 triggerC3W
          (Except.ok (Period.duration 10)) id []
        = Except.ok (st', q',
            SEvent.commit ::
              send_to_token_processor toks TaskPriority.BackFill) ∧
      List.Perm toks (catchupCollectedTokens 35 schedStC10 triggerC3W
        (Period.duration 10)) ∧
      (triggerC3W.catchup = Catchup.Earliest →
        List.Pairwise (fun a b : Token =>
          a.trigger_datetime ≤ b.trigger_datetime) toks) ∧
      (triggerC3W.catchup = Catchup.Latest →
        List.Pairwise (fun a b : Token =>
          b.trigger_datetime ≤ a.trigger_datetime) toks) ∧
      (triggerC3W.catchup = Catchup.None → toks = [])) ∧
    (∀ tt : TriggerTime, (scheduler_fire schedStC10 tt).2
      = SEvent.commit ::
        send_to_token_processor (do_activate_trigger schedStC10 tt).2
          TaskPriority.Normal) :=
  catchup_ordering_policy 35 schedStC10 triggerC3W (Period.duration 10)
    id [] (fun l => List.Perm.refl l)

/-- Witness for C8 at the concrete bad-cron scheduler DB: the find, the cron
column and the failing parse are all discharged by `rfl`. -/
theorem bad_cron_error_propagates_witness :
    schedStC8.triggers.find? (fun r => r.trigger.id == 7 && !r.job_paused)
      = some ⟨triggerC8, false⟩ ∧
    triggerC8.cron = some "bad cron" ∧
    parseC8 "bad cron" = Except.error "invalid cron expression" ∧
    (update_trigger 0 schedStC8 7 parseC8 id []
        = Except.error "invalid cron expression" ∧
      ∀ (rest : List TriggerRowJoin) (st0 : SchedState)
        (q0 : List TriggerTime),
        (⟨triggerC8, false⟩ : TriggerRowJoin).job_paused = false →
        restoreLoop 0 parseC8 id (⟨triggerC8, false⟩ :: rest) st0 q0
          = Except.error "invalid cron expression") :=
  ⟨rfl, rfl, rfl,
    bad_cron_error_propagates 0 schedStC8 7 parseC8 id []
      ⟨triggerC8, false⟩ "bad cron" "invalid cron expression" rfl rfl rfl⟩

/-! ### C9: the worker heartbeat message -/

/-- The `WorkerHeartbeat` struct exactly as declared in `src/messages.rs`
lines 54-59: it has three fields. -/
structure WorkerHeartbeat where
  uuid : Uuid
  addr : String
  last_seen_datetime : DateTime
deriving DecidableEq

/-- Serialization of `WorkerHeartbeat` (its `derive(Serialize)`): one
JSON field per declared struct field, values rendered as strings here since
only the field set matters. -/
def serializeWorkerHeartbeat (h : WorkerHeartbeat) : List (String × String) :=
  [("uuid", toString h.uuid), ("addr", h.addr),
   ("last_seen_datetime", toString h.last_seen_datetime)]

/-- The six fields of the struct literal that `post_heartbeat`
(`src/worker/heartbeat.rs` lines 17-24) tries to build and post. -/
def postHeartbeatFields : List String :=
  ["uuid", "addr", "last_seen_datetime", "running_tasks", "total_tasks",
   "version"]

/-- C9: the claim says every heartbeat carries exactly six fields and that
the heartbeat type serializes all six.  The declared `WorkerHeartbeat` type
serializes exactly three fields — `uuid`, `addr`, `last_seen_datetime` —
and lacks `running_tasks`, `total_tasks` and `version`, contradicting both
the claim and the six-field literal its own caller `post_heartbeat`
constructs (which cannot even compile against this declaration). -/
theorem workerHeartbeat_serializes_three_fields (h : WorkerHeartbeat) :
    (serializeWorkerHeartbeat h).map Prod.fst
      = ["uuid", "addr", "last_seen_datetime"] ∧
    (serializeWorkerHeartbeat h).map Prod.fst ≠ postHeartbeatFields ∧
    ¬ "running_tasks" ∈ (serializeWorkerHeartbeat h).map Prod.fst ∧
    ¬ "total_tasks" ∈ (serializeWorkerHeartbeat h).map Prod.fst ∧
    ¬ "version" ∈ (serializeWorkerHeartbeat h).map Prod.fst := by
  have hf : (serializeWorkerHeartbeat h).map Prod.fst
      = ["uuid", "addr", "last_seen_datetime"] := rfl
  refine ⟨hf, ?_, ?_, ?_, ?_⟩
  all_goals rw [hf]
  all_goals decide
